import Mathlib

/-!
Verification development for `check_vestings.py`.

The development shallowly embeds the core of the script:
the identifier normalizer `bytes32_from_any`, the per-row enrichment
performed inside the `main` loop, and the output-table assembly
(`pd.DataFrame(rows)` followed by the base-column reindexing).

Python byte strings are modelled as `List Nat` (each entry a byte value),
Python text strings as Lean `String` (worked on via their `List Char`
data), and exceptions as a `PyErr` record carrying the class name and the
message.  The dynamic typing of the `vestingId` cell is modelled by the
`PyVal` inductive.  Everything is computable so that concrete runs can be
checked by `rfl`/`decide`.
-/

set_option maxRecDepth 10000

namespace CheckVestings

/-! ### Character helpers -/

/-- The backslash character. -/
def BS : Char := Char.ofNat 92

/-- The single-quote character. -/
def SQ : Char := Char.ofNat 39

/-- The double-quote character. -/
def DQ : Char := Char.ofNat 34

/-- ASCII whitespace, the class skipped by `bytes.fromhex` and stripped by
`str.strip` (Python's `strip` also removes some further Unicode whitespace;
the model restricts attention to the ASCII class). -/
def isPySpace (c : Char) : Bool :=
  decide (c.toNat = 32 ∨ c.toNat = 9 ∨ c.toNat = 10 ∨ c.toNat = 11 ∨
          c.toNat = 12 ∨ c.toNat = 13)

/-- Hexadecimal digit, as accepted by `bytes.fromhex`: `0-9`, `a-f`, `A-F`. -/
def isHexDig (c : Char) : Bool :=
  decide ((48 ≤ c.toNat ∧ c.toNat ≤ 57) ∨ (97 ≤ c.toNat ∧ c.toNat ≤ 102) ∨
          (65 ≤ c.toNat ∧ c.toNat ≤ 70))

/-- Value of a hexadecimal digit character. -/
def hexVal (c : Char) : Nat :=
  if c.toNat ≤ 57 then c.toNat - 48
  else if c.toNat ≤ 70 then c.toNat - 55
  else c.toNat - 87

/-- Lower-case hexadecimal digit character for a value `< 16`. -/
def hexDigitChar (n : Nat) : Char :=
  if n < 10 then Char.ofNat (48 + n) else Char.ofNat (87 + n)

/-! ### `bytes.fromhex`

CPython's `bytes.fromhex` repeatedly skips ASCII whitespace and then
requires two adjacent hexadecimal digits forming one byte; whitespace is
therefore allowed before, after and between byte pairs but not inside a
pair, and any other character is an error. -/

/-- Model of `bytes.fromhex` restricted to a character list; `none` models
the `ValueError` raised on malformed input. -/
def pyFromHex : List Char → Option (List Nat)
  | [] => some []
  | c :: cs =>
    if isPySpace c then pyFromHex cs
    else
      match cs with
      | [] => none
      | d :: rest =>
        if isHexDig c && isHexDig d then
          (pyFromHex rest).map (fun bs => (16 * hexVal c + hexVal d) :: bs)
        else none

/-- Grammar view of the strings accepted by `bytes.fromhex`: hexadecimal
digit pairs separated by optional ASCII whitespace. -/
def hexPairsWS : List Char → Bool
  | [] => true
  | c :: cs =>
    if isPySpace c then hexPairsWS cs
    else
      match cs with
      | [] => false
      | d :: rest => isHexDig c && isHexDig d && hexPairsWS rest

/-! ### `str.strip` -/

/-- Leading-whitespace strip. -/
def lstripL (l : List Char) : List Char := l.dropWhile isPySpace

/-- Trailing-whitespace strip. -/
def rstripL (l : List Char) : List Char := (l.reverse.dropWhile isPySpace).reverse

/-- Model of Python `str.strip()` (no arguments): remove leading and
trailing whitespace. -/
def pyStripL (l : List Char) : List Char := rstripL (lstripL l)

/-- Model of `s.startswith("0x")` followed by `s[2:]`: drop a leading
lowercase `0x` (the source's check is case-sensitive). -/
def strip0x : List Char → List Char
  | c0 :: c1 :: rest => if c0 = '0' ∧ c1 = 'x' then rest else c0 :: c1 :: rest
  | l => l

/-! ### Python `repr` of strings, bytes and exceptions -/

/-- Escaping of one character inside a `repr`'d string quoted by `q`,
following CPython: backslash and the quote get a backslash, tab, newline
and carriage return their two-character escapes, other control characters
(and DEL) a `\xHH` escape; everything else is kept literally. -/
def pyCharEsc (q c : Char) : List Char :=
  if c = BS then [BS, BS]
  else if c = q then [BS, q]
  else if c = Char.ofNat 9 then [BS, 't']
  else if c = Char.ofNat 10 then [BS, 'n']
  else if c = Char.ofNat 13 then [BS, 'r']
  else if c.toNat < 32 ∨ c.toNat = 127 then
    [BS, 'x', hexDigitChar (c.toNat / 16 % 16), hexDigitChar (c.toNat % 16)]
  else [c]

/-- Quote character chosen by CPython's string `repr`: single quote unless
the string contains a single quote but no double quote. -/
def pyQuote (l : List Char) : Char :=
  if l.contains SQ ∧ ¬ l.contains DQ then DQ else SQ

/-- Model of `repr` of a text string, as a character list. -/
def pyStrReprL (l : List Char) : List Char :=
  pyQuote l :: ((l.map (pyCharEsc (pyQuote l))).flatten ++ [pyQuote l])

/-- Escaping of one byte inside a `repr`'d bytes object quoted by `q`. -/
def pyByteEsc (q : Char) (n : Nat) : List Char :=
  if n = 92 then [BS, BS]
  else if n = q.toNat then [BS, q]
  else if n = 9 then [BS, 't']
  else if n = 10 then [BS, 'n']
  else if n = 13 then [BS, 'r']
  else if 32 ≤ n ∧ n < 127 then [Char.ofNat n]
  else [BS, 'x', hexDigitChar (n / 16 % 16), hexDigitChar (n % 16)]

/-- Quote character chosen by CPython's bytes `repr`. -/
def pyBytesQuote (bs : List Nat) : Char :=
  if bs.contains 39 ∧ ¬ bs.contains 34 then DQ else SQ

/-- Model of `str`/`repr` of a bytes object: `b` followed by the quoted,
escaped content. -/
def pyBytesReprL (bs : List Nat) : List Char :=
  'b' :: pyBytesQuote bs ::
    ((bs.map (pyByteEsc (pyBytesQuote bs))).flatten ++ [pyBytesQuote bs])

/-- A Python exception, reduced to its class name and its single message
argument (every exception the core raises or records has this shape). -/
structure PyErr where
  kind : String
  msg : String
  deriving DecidableEq

/-- Decidable equality for `Except`, for evaluating concrete runs. -/
instance {ε α : Type} [DecidableEq ε] [DecidableEq α] : DecidableEq (Except ε α) := fun a b =>
  match a, b with
  | .ok x, .ok y =>
    if h : x = y then .isTrue (by rw [h]) else .isFalse (by intro hc; cases hc; exact h rfl)
  | .error x, .error y =>
    if h : x = y then .isTrue (by rw [h]) else .isFalse (by intro hc; cases hc; exact h rfl)
  | .ok _, .error _ => .isFalse (by intro hc; cases hc)
  | .error _, .ok _ => .isFalse (by intro hc; cases hc)

/-- Model of `repr(e)` for a single-message exception:
`Kind('message')` with the message rendered by the string `repr`. -/
def pyReprL (e : PyErr) : List Char :=
  e.kind.data ++ ('(' :: (pyStrReprL e.msg.data ++ [')']))

/-- Characters whose string-`repr` escaping is the identity under either
quote character: not a backslash, not a quote, and printable ASCII-wise. -/
def pyPlainChar (c : Char) : Bool :=
  decide (¬ c = BS ∧ ¬ c = SQ ∧ ¬ c = DQ ∧ 32 ≤ c.toNat ∧ c.toNat ≠ 127)

/-! ### The dynamically typed `vestingId` cell -/

/-- A Python value as it can appear in the `vestingId` cell: a bytes-like
object, a text string, an integer, or `None`. -/
inductive PyVal where
  | vBytes (bs : List Nat)
  | vStr (s : String)
  | vInt (i : Int)
  | vNone
  deriving DecidableEq

/-- Model of `str(v)`.  For text it is the identity, integers render in
decimal, `None` renders as `None`, and bytes render through the bytes
`repr` (Python `str` of a bytes object is its `repr`). -/
def pyStr : PyVal → String
  | .vStr s => s
  | .vInt i => toString i
  | .vNone => "None"
  | .vBytes bs => String.mk (pyBytesReprL bs)

/-! ### `bytes32_from_any` -/

/-- String path of `bytes32_from_any` (lines 55-67 of the source): strip
surrounding whitespace, drop a lowercase `0x` prefix, require exactly 64
remaining characters, and decode them with `bytes.fromhex`. -/
def bytes32_str_path (s0 : String) : Except PyErr (List Nat) :=
  let s := pyStripL s0.data
  let sHex := strip0x s
  if sHex.length ≠ 64 then
    .error ⟨"ValueError",
      "vestingId must be 32 bytes hex (64 chars). Got len=" ++
        toString sHex.length ++ " value=" ++ String.mk s⟩
  else
    match pyFromHex sHex with
    | some bs => .ok bs
    | none => .error ⟨"ValueError", "Invalid hex in vestingId: " ++ String.mk s⟩

/-- Model of `bytes32_from_any` (lines 42-67 of the source).  Bytes-like
values must already have length 32; every other value is rendered with
`str` and sent through the string path.  The `Except.error` constructor
models the raised `ValueError`. -/
def bytes32_from_any (v : PyVal) : Except PyErr (List Nat) :=
  match v with
  | .vBytes bs =>
    if bs.length ≠ 32 then
      .error ⟨"ValueError", "Expected 32 bytes, got " ++ toString bs.length⟩
    else .ok bs
  | _ => bytes32_str_path (pyStr v)

/-! ### The remote record and the per-row enrichment -/

/-- The decoded `vestings(bytes32)` result.  The fields are listed in the
positional order fixed by the ABI (`address, uint8, bool, uint16, uint64,
uint128, uint128, uint64, bool`); the source reads positions 0, 5 and 6 of
the returned tuple. -/
structure VestingRecord where
  account : String
  curveType : Nat
  managed : Bool
  durationWeeks : Nat
  startDate : Nat
  amount : Nat
  amountClaimed : Nat
  pausingDate : Nat
  cancelled : Bool
  deriving DecidableEq

/-- The remote accessor capability: `contract.functions.vestings(b32).call()`,
with any raised exception modelled by `Except.error`. -/
def Accessor : Type := List Nat → Except PyErr VestingRecord

/-- One input row, with the two required columns. -/
structure InputRow where
  owner : String
  vestingId : PyVal

/-- One output row.  The source stores the amounts as Python integers and
the CSV writer renders them in decimal; the model carries the rendered
decimal text directly.  A missing `error` key is `none`. -/
structure OutputRow where
  owner : String
  vestingId : String
  account : String
  amount : String
  amountClaimed : String
  error : Option String
  deriving DecidableEq

/-- The loop body of `main` (lines 131-164): normalize the identifier, call
the accessor, and on success project positions 0, 5 and 6 of the record;
any failure of either step is caught and turned into a row with empty
`account`/`amount`/`amountClaimed` and `error = repr(e)`. -/
def enrich (acc : Accessor) (row : InputRow) : OutputRow :=
  match bytes32_from_any row.vestingId with
  | .error e =>
    { owner := row.owner, vestingId := pyStr row.vestingId,
      account := "", amount := "", amountClaimed := "",
      error := some (String.mk (pyReprL e)) }
  | .ok b32 =>
    match acc b32 with
    | .error e =>
      { owner := row.owner, vestingId := pyStr row.vestingId,
        account := "", amount := "", amountClaimed := "",
        error := some (String.mk (pyReprL e)) }
    | .ok r =>
      { owner := row.owner, vestingId := pyStr row.vestingId,
        account := r.account, amount := toString r.amount,
        amountClaimed := toString r.amountClaimed, error := none }

/-! ### Output-table assembly -/

/-- The fixed base column order requested at line 169 of the source. -/
def baseCols : List String := ["owner", "vestingId", "account", "amount", "amountClaimed"]

/-- The keys of the dictionary appended for a row: the five base keys, plus
`error` exactly on failed rows. -/
def rowKeys (r : OutputRow) : List String :=
  baseCols ++ (if r.error.isSome then ["error"] else [])

/-- One step of the column-union performed by `pd.DataFrame(rows)`: append
the row's keys that were not seen yet, preserving first-appearance order. -/
def dfStep (acc : List String) (r : OutputRow) : List String :=
  acc ++ (rowKeys r).filter (fun c => !(acc.contains c))

/-- The columns of `pd.DataFrame(rows)`: union of the row keys in order of
first appearance (empty for an empty row list). -/
def dfCols (rows : List OutputRow) : List String :=
  rows.foldl dfStep []

/-- The assembled output table: the final column list and the rows. -/
structure OutputTable where
  cols : List String
  rows : List OutputRow
  deriving DecidableEq

/-- The pipeline driver (lines 126-171): map the loop body over the rows in
order, build the frame, and reindex it to the base columns followed by the
remaining columns.  `out_df[base_cols + extra_cols]` raises a `KeyError`
when a requested column is absent from the frame, which happens exactly
when the row list is empty (the empty frame has no columns at all); the
raised error is modelled by `Except.error`. -/
def runPipeline (acc : Accessor) (input : List InputRow) : Except String OutputTable :=
  let rows := input.map (enrich acc)
  let cols := dfCols rows
  let extra := cols.filter (fun c => !(baseCols.contains c))
  if baseCols.all (fun c => cols.contains c) then
    .ok ⟨baseCols ++ extra, rows⟩
  else
    .error "KeyError: requested base columns absent from the assembled frame"

end CheckVestings


namespace CheckVestings

/-! ### Character-class lemmas -/

theorem isPySpace_false_of_isHexDig {c : Char} (h : isHexDig c = true) :
    isPySpace c = false := by
  simp only [isHexDig, decide_eq_true_eq] at h
  simp only [isPySpace, decide_eq_false_iff_not]
  omega

/-! ### Strip lemmas -/

theorem dropWhile_false_of_all {p : Char → Bool} {l : List Char}
    (h : ∀ c ∈ l, p c = false) : l.dropWhile p = l := by
  cases l with
  | nil => rfl
  | cons a t => simp [List.dropWhile_cons, h a (by simp)]

theorem rstripL_append_eq (m : List Char) : ∃ t, rstripL m ++ t = m := by
  refine ⟨(m.reverse.takeWhile isPySpace).reverse, ?_⟩
  rw [rstripL, ← List.reverse_append, List.takeWhile_append_dropWhile, List.reverse_reverse]

theorem dropWhile_fix_of_append {p : Char → Bool} {B t A : List Char}
    (hA : A.dropWhile p = A) (h : B ++ t = A) : B.dropWhile p = B := by
  cases B with
  | nil => rfl
  | cons b bs =>
    have hb : p b = false := by
      by_cases hpb : p b = true
      · exfalso
        rw [← h, List.cons_append, List.dropWhile_cons, if_pos hpb] at hA
        have hs := (List.dropWhile_suffix (l := bs ++ t) p).sublist.length_le
        rw [hA] at hs
        simp only [List.length_cons] at hs
        omega
      · simpa using hpb
    simp [List.dropWhile_cons, hb]

theorem rstripL_idem (m : List Char) : rstripL (rstripL m) = rstripL m := by
  simp [rstripL, List.reverse_reverse, List.dropWhile_idempotent]

theorem pyStripL_idem (l : List Char) : pyStripL (pyStripL l) = pyStripL l := by
  have hA : (lstripL l).dropWhile isPySpace = lstripL l := by
    simp [lstripL, List.dropWhile_idempotent]
  obtain ⟨t, ht⟩ := rstripL_append_eq (lstripL l)
  have hB : (rstripL (lstripL l)).dropWhile isPySpace = rstripL (lstripL l) :=
    dropWhile_fix_of_append hA ht
  show rstripL (lstripL (rstripL (lstripL l))) = rstripL (lstripL l)
  rw [show lstripL (rstripL (lstripL l)) = rstripL (lstripL l) from hB,
    rstripL_idem]

theorem pyStripL_of_no_space {l : List Char}
    (h : ∀ c ∈ l, isPySpace c = false) : pyStripL l = l := by
  have h1 : lstripL l = l := dropWhile_false_of_all h
  have h2 : ∀ c ∈ l.reverse, isPySpace c = false := by
    intro c hc; exact h c (List.mem_reverse.mp hc)
  rw [pyStripL, h1, rstripL, dropWhile_false_of_all h2, List.reverse_reverse]

end CheckVestings

namespace CheckVestings

/-! ### Hex-decoding lemmas -/

/-- Two-step list induction matching the recursion of `pyFromHex`. -/
theorem twoStepInduction {motive : List Char → Prop} (h0 : motive [])
    (h1 : ∀ c, motive [c])
    (h2 : ∀ c d rest, motive rest → motive (d :: rest) → motive (c :: d :: rest)) :
    ∀ l, motive l
  | [] => h0
  | [c] => h1 c
  | c :: d :: rest =>
    h2 c d rest (twoStepInduction h0 h1 h2 rest) (twoStepInduction h0 h1 h2 (d :: rest))

theorem pyFromHex_hex (h : List Char) (hall : h.all isHexDig = true)
    (heven : h.length % 2 = 0) :
    ∃ bs, pyFromHex h = some bs ∧ 2 * bs.length = h.length := by
  induction h using twoStepInduction with
  | h0 => exact ⟨[], rfl, rfl⟩
  | h1 c => simp at heven
  | h2 c d rest ih _ =>
    simp only [List.all_cons, Bool.and_eq_true] at hall
    obtain ⟨hc, hd, hrest⟩ := hall
    obtain ⟨bs, hbs, hlb⟩ := ih hrest (by simp at heven ⊢; omega)
    refine ⟨(16 * hexVal c + hexVal d) :: bs, ?_, ?_⟩
    · simp [pyFromHex, isPySpace_false_of_isHexDig hc, hc, hd, hbs]
    · simp [List.length_cons]
      omega

theorem pyFromHex_isSome_eq_hexPairsWS (l : List Char) :
    (pyFromHex l).isSome = hexPairsWS l := by
  induction l using twoStepInduction with
  | h0 => rfl
  | h1 c =>
    by_cases hsp : isPySpace c = true
    · simp [pyFromHex, hexPairsWS, hsp]
    · simp at hsp
      simp [pyFromHex, hexPairsWS, hsp]
  | h2 c d rest ih1 ih2 =>
    by_cases hsp : isPySpace c = true
    · simpa [pyFromHex, hexPairsWS, hsp] using ih2
    · simp at hsp
      by_cases hcd : (isHexDig c && isHexDig d) = true
      · rw [Bool.and_eq_true] at hcd
        obtain ⟨hxc, hxd⟩ := hcd
        simpa [pyFromHex, hexPairsWS, hsp, hxc, hxd] using ih1
      · simp only [Bool.and_eq_true, not_and] at hcd
        by_cases hc : isHexDig c = true
        · have hd : isHexDig d = false := by
            have := hcd hc
            simpa using this
          simp [pyFromHex, hexPairsWS, hsp, hc, hd]
        · simp at hc
          simp [pyFromHex, hexPairsWS, hsp, hc]

/-! ### `strip0x` lemmas -/

theorem strip0x_prefixed (h : List Char) : strip0x ('0' :: 'x' :: h) = h := by
  simp [strip0x]

theorem strip0x_of_hex {h : List Char} (hall : h.all isHexDig = true) :
    strip0x h = h := by
  cases h with
  | nil => rfl
  | cons c0 t =>
    cases t with
    | nil => rfl
    | cons c1 rest =>
      simp only [strip0x]
      rw [if_neg]
      rintro ⟨-, h1⟩
      subst h1
      simp only [List.all_cons, Bool.and_eq_true] at hall
      exact absurd hall.2.1 (by decide)

/-! ### Success of the normalizer on clean 64-character hex strings -/

theorem bytes32_hexstr (h : List Char) (hlen : h.length = 64)
    (hall : h.all isHexDig = true) :
    ∃ bs, pyFromHex h = some bs ∧ bs.length = 32 ∧
      bytes32_from_any (.vStr (String.mk ('0' :: 'x' :: h))) = .ok bs ∧
      bytes32_from_any (.vStr (String.mk h)) = .ok bs := by
  obtain ⟨bs, hbs, hlb⟩ := pyFromHex_hex h hall (by omega)
  have hallmem : ∀ c ∈ h, isHexDig c = true := List.all_eq_true.mp hall
  have hnos : ∀ c ∈ h, isPySpace c = false := fun c hc =>
    isPySpace_false_of_isHexDig (hallmem c hc)
  refine ⟨bs, hbs, by omega, ?_, ?_⟩
  · show bytes32_str_path (String.mk ('0' :: 'x' :: h)) = .ok bs
    have hstrip : pyStripL ('0' :: 'x' :: h) = '0' :: 'x' :: h := by
      apply pyStripL_of_no_space
      intro c hc
      rcases List.mem_cons.mp hc with rfl | hc2
      · decide
      rcases List.mem_cons.mp hc2 with rfl | hc3
      · decide
      · exact hnos c hc3
    simp only [bytes32_str_path, String.mk, hstrip, strip0x_prefixed, hlen]
    simp [hbs]
  · show bytes32_str_path (String.mk h) = .ok bs
    have hstrip : pyStripL h = h := pyStripL_of_no_space hnos
    simp only [bytes32_str_path, String.mk, hstrip, strip0x_of_hex hall, hlen]
    simp [hbs]

end CheckVestings

namespace CheckVestings

/-! ### `repr` lemmas -/

theorem pyQuote_cases (l : List Char) : pyQuote l = SQ ∨ pyQuote l = DQ := by
  unfold pyQuote
  by_cases h : l.contains SQ ∧ ¬ l.contains DQ
  · rw [if_pos h]; exact Or.inr rfl
  · rw [if_neg h]; exact Or.inl rfl

theorem pyCharEsc_plain {q c : Char} (hq : q = SQ ∨ q = DQ)
    (hp : pyPlainChar c = true) : pyCharEsc q c = [c] := by
  simp only [pyPlainChar, decide_eq_true_eq] at hp
  obtain ⟨h1, h2, h3, h4, h5⟩ := hp
  have hq' : ¬ c = q := by rcases hq with rfl | rfl <;> assumption
  have h9 : ¬ c = Char.ofNat 9 := by
    intro h; subst h; exact absurd h4 (by decide)
  have h10 : ¬ c = Char.ofNat 10 := by
    intro h; subst h; exact absurd h4 (by decide)
  have h13 : ¬ c = Char.ofNat 13 := by
    intro h; subst h; exact absurd h4 (by decide)
  have hctl : ¬ (c.toNat < 32 ∨ c.toNat = 127) := by omega
  unfold pyCharEsc
  rw [if_neg h1, if_neg hq', if_neg h9, if_neg h10, if_neg h13, if_neg hctl]

theorem flatten_esc_plain {l : List Char} (hp : ∀ c ∈ l, pyPlainChar c = true)
    {q : Char} (hq : q = SQ ∨ q = DQ) :
    (l.map (pyCharEsc q)).flatten = l := by
  induction l with
  | nil => rfl
  | cons a t ih =>
    rw [List.map_cons, List.flatten_cons, pyCharEsc_plain hq (hp a (by simp)),
      ih (fun c hc => hp c (by simp [hc]))]
    rfl

/-! ### Column-assembly lemmas -/

theorem dfStep_base (r : OutputRow) :
    dfStep baseCols r = if r.error.isSome then baseCols ++ ["error"] else baseCols := by
  cases h : r.error.isSome <;> simp only [dfStep, rowKeys, h] <;> rfl

theorem dfStep_full (r : OutputRow) :
    dfStep (baseCols ++ ["error"]) r = baseCols ++ ["error"] := by
  cases h : r.error.isSome <;> simp only [dfStep, rowKeys, h] <;> rfl

theorem foldl_dfStep_full : ∀ rows : List OutputRow,
    List.foldl dfStep (baseCols ++ ["error"]) rows = baseCols ++ ["error"]
  | [] => rfl
  | r :: rest => by rw [List.foldl_cons, dfStep_full, foldl_dfStep_full rest]

theorem foldl_dfStep_base (rows : List OutputRow) :
    List.foldl dfStep baseCols rows =
      if rows.any (fun r => r.error.isSome) then baseCols ++ ["error"] else baseCols := by
  induction rows with
  | nil => rfl
  | cons r rest ih =>
    rw [List.foldl_cons, dfStep_base]
    cases h : r.error.isSome
    · simp only [h, Bool.false_eq_true, if_false, List.any_cons, Bool.false_or]
      exact ih
    · simp only [h, if_true, List.any_cons, Bool.true_or]
      rw [foldl_dfStep_full]

theorem dfCols_eq (r : OutputRow) (rest : List OutputRow) :
    dfCols (r :: rest) =
      if (r :: rest).any (fun x => x.error.isSome) then baseCols ++ ["error"] else baseCols := by
  have hstep : dfStep [] r = rowKeys r := by
    cases h : r.error.isSome <;> simp only [dfStep, rowKeys, h] <;> rfl
  rw [dfCols, List.foldl_cons, hstep]
  cases h : r.error.isSome
  · have hk : rowKeys r = baseCols := by simp [rowKeys, h]
    rw [hk, foldl_dfStep_base]
    simp [List.any_cons, h]
  · have hk : rowKeys r = baseCols ++ ["error"] := by simp [rowKeys, h]
    rw [hk, foldl_dfStep_full]
    simp [List.any_cons, h]

theorem runPipeline_cons (acc : Accessor) (r0 : InputRow) (rest : List InputRow) :
    runPipeline acc (r0 :: rest) =
      .ok ⟨baseCols ++
            (if (enrich acc r0 :: rest.map (enrich acc)).any (fun x => x.error.isSome)
             then ["error"] else []),
          enrich acc r0 :: rest.map (enrich acc)⟩ := by
  simp only [runPipeline, List.map_cons]
  rw [dfCols_eq]
  cases h : (enrich acc r0 :: rest.map (enrich acc)).any (fun x => x.error.isSome)
  · simp only [h, Bool.false_eq_true, if_false]
    rw [if_pos (by decide)]
    rfl
  · simp only [h, if_true]
    rw [if_pos (by decide)]
    rfl

theorem runPipeline_nil (acc : Accessor) :
    runPipeline acc [] =
      .error "KeyError: requested base columns absent from the assembled frame" := rfl

end CheckVestings

namespace CheckVestings

/-! ### Concrete fixtures for witnesses and counterexamples -/

/-- An accessor that always fails, modelling an unreachable RPC endpoint. -/
def nullAccessor : Accessor := fun _ => .error ⟨"ConnectionError", "RPC unreachable"⟩

/-- A concrete decoded record, as a deterministic accessor result. -/
def demoRecord : VestingRecord :=
  ⟨"0xBEEF", 0, true, 8, 1600000000, 1000, 250, 0, false⟩

/-- An accessor that always succeeds with `demoRecord`. -/
def okAccessor : Accessor := fun _ => .ok demoRecord

/-- A row whose `vestingId` does not normalize. -/
def badRow : InputRow := ⟨"0xA1", .vStr "nothex"⟩

/-- A row with a well-formed `0x`-prefixed 64-hex-digit identifier. -/
def hexRow : InputRow := ⟨"0xA1", .vStr (String.mk ('0' :: 'x' :: List.replicate 64 '1'))⟩

/-! ### Facts about rendered exceptions -/

theorem pyReprL_facts (e : PyErr) :
    pyReprL e ≠ [] ∧ (∃ t, pyReprL e = e.kind.data ++ t) ∧
    ((∀ c ∈ e.msg.data, pyPlainChar c = true) →
      ∃ t u, pyReprL e = t ++ e.msg.data ++ u) := by
  refine ⟨?_, ⟨_, rfl⟩, ?_⟩
  · unfold pyReprL
    simp
  · intro hp
    refine ⟨e.kind.data ++ ['(', pyQuote e.msg.data], [pyQuote e.msg.data, ')'], ?_⟩
    rw [pyReprL, pyStrReprL, flatten_esc_plain hp (pyQuote_cases e.msg.data)]
    simp

/-! ### Claim theorems -/

/-- Claim C1: the row enricher never raises (it is a total function); when
either the normalization or the accessor call fails, the failure is caught
and turned into an output row whose `account`, `amount` and `amountClaimed`
are empty and whose `error` is the non-empty `repr` of the exception,
starting with the exception kind and containing the message (literally so
whenever the message needs no `repr` escaping); when normalization fails the
accessor is never consulted: the result is the same for every accessor. -/
theorem enrich_failure_isolation (f g : Accessor) (row : InputRow)
    (h : (∃ e, bytes32_from_any row.vestingId = .error e) ∨
         (∃ b e, bytes32_from_any row.vestingId = .ok b ∧ f b = .error e)) :
    (enrich f row).account = "" ∧ (enrich f row).amount = "" ∧
    (enrich f row).amountClaimed = "" ∧
    (∃ e, (enrich f row).error = some (String.mk (pyReprL e)) ∧
      pyReprL e ≠ [] ∧
      (∃ t, pyReprL e = e.kind.data ++ t) ∧
      ((∀ c ∈ e.msg.data, pyPlainChar c = true) →
        ∃ t u, pyReprL e = t ++ e.msg.data ++ u)) ∧
    ((∃ e, bytes32_from_any row.vestingId = .error e) → enrich f row = enrich g row) := by
  rcases h with ⟨e, he⟩ | ⟨b, e, hb, he⟩
  · obtain ⟨hne, hkind, hmsg⟩ := pyReprL_facts e
    exact ⟨by simp [enrich, he], by simp [enrich, he], by simp [enrich, he],
      ⟨e, by simp [enrich, he], hne, hkind, hmsg⟩,
      fun _ => by simp [enrich, he]⟩
  · obtain ⟨hne, hkind, hmsg⟩ := pyReprL_facts e
    refine ⟨by simp [enrich, hb, he], by simp [enrich, hb, he], by simp [enrich, hb, he],
      ⟨e, by simp [enrich, hb, he], hne, hkind, hmsg⟩, ?_⟩
    rintro ⟨e0, he0⟩
    rw [he0] at hb
    cases hb

/-- Witness for C1 at a concrete failing row and two distinct accessors. -/
theorem enrich_failure_isolation_witness :
    (enrich nullAccessor badRow).account = "" ∧ (enrich nullAccessor badRow).amount = "" ∧
    (enrich nullAccessor badRow).amountClaimed = "" ∧
    (∃ e, (enrich nullAccessor badRow).error = some (String.mk (pyReprL e)) ∧
      pyReprL e ≠ [] ∧
      (∃ t, pyReprL e = e.kind.data ++ t) ∧
      ((∀ c ∈ e.msg.data, pyPlainChar c = true) →
        ∃ t u, pyReprL e = t ++ e.msg.data ++ u)) ∧
    ((∃ e, bytes32_from_any badRow.vestingId = .error e) →
      enrich nullAccessor badRow = enrich okAccessor badRow) :=
  enrich_failure_isolation nullAccessor okAccessor badRow
    (Or.inl ⟨⟨"ValueError",
      "vestingId must be 32 bytes hex (64 chars). Got len=6 value=nothex"⟩, rfl⟩)

/-- Claim C2 counterexample: on the empty input sequence the pipeline does
not produce a table at all: the empty frame has no columns, so the
base-column selection raises a `KeyError` and the run aborts. -/
theorem runPipeline_empty_aborts :
    runPipeline nullAccessor [] =
      .error "KeyError: requested base columns absent from the assembled frame" := rfl

/-- Claim C2 (amended): for every nonempty input sequence the pipeline
produces a table with exactly one output row per input row, in input order,
regardless of how many rows fail; the empty input instead aborts during
output-table assembly. -/
theorem runPipeline_one_row_per_input (acc : Accessor) (input : List InputRow)
    (h : input ≠ []) :
    ∃ t, runPipeline acc input = .ok t ∧ t.rows = input.map (enrich acc) ∧
      t.rows.length = input.length := by
  cases input with
  | nil => exact absurd rfl h
  | cons r0 rest =>
    refine ⟨_, runPipeline_cons acc r0 rest, ?_, ?_⟩
    · simp [List.map_cons]
    · simp [List.map_cons]

/-- Witness for C2 at a concrete one-row input. -/
theorem runPipeline_one_row_per_input_witness :
    [badRow] ≠ [] ∧
    ∃ t, runPipeline nullAccessor [badRow] = .ok t ∧
      t.rows = [badRow].map (enrich nullAccessor) ∧ t.rows.length = [badRow].length :=
  ⟨by simp, runPipeline_one_row_per_input nullAccessor [badRow] (by simp)⟩

/-- Claim C6: on a row whose normalization and accessor call both succeed,
the output row carries the owner unchanged, the `str` rendering of the
original `vestingId` (not the canonical bytes), the record's positional
field 0 as `account`, and the exact decimal text of the positional fields 5
and 6 (`amount`, `amountClaimed`), with no error. -/
theorem enrich_success_projection (f : Accessor) (row : InputRow) (b : List Nat)
    (vr : VestingRecord) (h1 : bytes32_from_any row.vestingId = .ok b)
    (h2 : f b = .ok vr) :
    enrich f row =
      { owner := row.owner, vestingId := pyStr row.vestingId,
        account := vr.account, amount := toString vr.amount,
        amountClaimed := toString vr.amountClaimed, error := none } := by
  simp [enrich, h1, h2]

/-- Witness for C6 at a concrete successful row. -/
theorem enrich_success_projection_witness :
    enrich okAccessor hexRow =
      { owner := hexRow.owner, vestingId := pyStr hexRow.vestingId,
        account := demoRecord.account, amount := toString demoRecord.amount,
        amountClaimed := toString demoRecord.amountClaimed, error := none } :=
  enrich_success_projection okAccessor hexRow (List.replicate 32 17) demoRecord rfl rfl

/-- Claim C8: the pipeline is deterministic: with equal inputs and
pointwise-equal (deterministic) accessors, two runs produce identical
results, including the aborting case. -/
theorem pipeline_deterministic (f g : Accessor) (in1 in2 : List InputRow)
    (hacc : ∀ b, f b = g b) (hin : in1 = in2) :
    runPipeline f in1 = runPipeline g in2 := by
  subst hin
  have henr : enrich f = enrich g := by
    funext r
    cases hb : bytes32_from_any r.vestingId with
    | error e => simp [enrich, hb]
    | ok b => simp [enrich, hb, hacc b]
  rw [runPipeline, runPipeline, henr]

/-- Witness for C8 at a concrete input and accessor. -/
theorem pipeline_deterministic_witness :
    runPipeline nullAccessor [badRow] = runPipeline nullAccessor [badRow] :=
  pipeline_deterministic nullAccessor nullAccessor [badRow] [badRow] (fun _ => rfl) rfl

end CheckVestings

namespace CheckVestings

/-- A 66-character string with an uppercase `0X` prefix before 64 hex digits. -/
def upperX64 : String := String.mk ('0' :: 'X' :: List.replicate 64 '1')

/-- Claim C3 counterexample: an uppercase `0X` prefix is not stripped: on
`"0X"` followed by 64 hex digits the normalizer fails (with a length error)
instead of decoding the 64 hex digits, because `s.startswith("0x")` is
case-sensitive. -/
theorem upperX_prefix_not_stripped :
    (upperX64.data = '0' :: 'X' :: List.replicate 64 '1' ∧
     (List.replicate 64 '1').length = 64 ∧
     (List.replicate 64 '1').all isHexDig = true) ∧
    (bytes32_from_any (.vStr upperX64)).isOk = false :=
  ⟨⟨rfl, by decide, by decide⟩, by decide⟩

/-- Claim C3 (amended): a leading lowercase `0x` prefix is stripped if
present (`0X` is not recognized: the check is case-sensitive and such
inputs fail); if the remaining text is exactly 64 hexadecimal characters it
is decoded to the corresponding 32 bytes. -/
theorem hex64_decode (h : List Char) (hlen : h.length = 64)
    (hall : h.all isHexDig = true) :
    ∃ bs, pyFromHex h = some bs ∧ bs.length = 32 ∧
      bytes32_from_any (.vStr (String.mk ('0' :: 'x' :: h))) = .ok bs ∧
      bytes32_from_any (.vStr (String.mk h)) = .ok bs ∧
      (∃ e, bytes32_from_any (.vStr (String.mk ('0' :: 'X' :: h))) = .error e) := by
  obtain ⟨bs, h1, h2, h3, h4⟩ := bytes32_hexstr h hlen hall
  refine ⟨bs, h1, h2, h3, h4, ?_⟩
  have hallmem : ∀ c ∈ h, isHexDig c = true := List.all_eq_true.mp hall
  have hnos : ∀ c ∈ ('0' :: 'X' :: h), isPySpace c = false := by
    intro c hc
    rcases List.mem_cons.mp hc with rfl | hc2
    · decide
    rcases List.mem_cons.mp hc2 with rfl | hc3
    · decide
    · exact isPySpace_false_of_isHexDig (hallmem c hc3)
  have hstrip : pyStripL ('0' :: 'X' :: h) = '0' :: 'X' :: h :=
    pyStripL_of_no_space hnos
  have h0x : strip0x ('0' :: 'X' :: h) = '0' :: 'X' :: h := by
    simp only [strip0x]
    rw [if_neg]
    rintro ⟨-, hX⟩
    exact absurd hX (by decide)
  refine ⟨⟨"ValueError",
    "vestingId must be 32 bytes hex (64 chars). Got len=" ++
      toString ('0' :: 'X' :: h).length ++ " value=" ++ String.mk ('0' :: 'X' :: h)⟩, ?_⟩
  show bytes32_str_path (String.mk ('0' :: 'X' :: h)) = _
  simp only [bytes32_str_path]
  rw [hstrip, h0x, if_pos (by simp [List.length_cons, hlen])]

/-- Witness for C3 at the all-ones 64-digit hex string. -/
theorem hex64_decode_witness :
    ∃ bs, pyFromHex (List.replicate 64 '1') = some bs ∧ bs.length = 32 ∧
      bytes32_from_any (.vStr (String.mk ('0' :: 'x' :: List.replicate 64 '1'))) = .ok bs ∧
      bytes32_from_any (.vStr (String.mk (List.replicate 64 '1'))) = .ok bs ∧
      (∃ e, bytes32_from_any (.vStr (String.mk ('0' :: 'X' :: List.replicate 64 '1'))) =
        .error e) :=
  hex64_decode (List.replicate 64 '1') (by decide) (by decide)

/-- Claim C5: the normalizer is representation-invariant: for a valid
64-character hex string `h`, the `0x`-prefixed string, the bare string and
the decoded 32-byte value all normalize successfully to the same canonical
32 bytes. -/
theorem normalize_representation_invariant (h : List Char) (hlen : h.length = 64)
    (hall : h.all isHexDig = true) :
    ∃ bs, pyFromHex h = some bs ∧ bs.length = 32 ∧
      bytes32_from_any (.vStr (String.mk ('0' :: 'x' :: h))) = .ok bs ∧
      bytes32_from_any (.vStr (String.mk h)) = .ok bs ∧
      bytes32_from_any (.vBytes bs) = .ok bs := by
  obtain ⟨bs, h1, h2, h3, h4⟩ := bytes32_hexstr h hlen hall
  refine ⟨bs, h1, h2, h3, h4, ?_⟩
  simp [bytes32_from_any, h2]

/-- Witness for C5 at the all-twos 64-digit hex string. -/
theorem normalize_representation_invariant_witness :
    ∃ bs, pyFromHex (List.replicate 64 '2') = some bs ∧ bs.length = 32 ∧
      bytes32_from_any (.vStr (String.mk ('0' :: 'x' :: List.replicate 64 '2'))) = .ok bs ∧
      bytes32_from_any (.vStr (String.mk (List.replicate 64 '2'))) = .ok bs ∧
      bytes32_from_any (.vBytes bs) = .ok bs :=
  normalize_representation_invariant (List.replicate 64 '2') (by decide) (by decide)

end CheckVestings

namespace CheckVestings

/-- A 64-character string of hex-digit pairs with two internal spaces
(30 digits, space, 30 digits, space, 2 digits). -/
def wsHex64 : String :=
  "111111111111111111111111111111 111111111111111111111111111111 11"

/-- Claim C4 counterexample: a string that still contains non-hexadecimal
characters (two internal spaces) after stripping, yet is accepted by the
normalizer, which returns a 31-byte value: `bytes.fromhex` skips ASCII
whitespace between digit pairs, so the claimed failure condition is not
exact. -/
theorem whitespace_hex_accepted :
    ((∃ c ∈ strip0x (pyStripL wsHex64.data), isHexDig c = false) ∧
     (strip0x (pyStripL wsHex64.data)).length = 64) ∧
    ∃ bs, bytes32_from_any (.vStr wsHex64) = .ok bs ∧ bs.length = 31 :=
  ⟨⟨⟨' ', by decide, by decide⟩, by decide⟩,
   ⟨List.replicate 31 17, rfl, by decide⟩⟩

theorem bytes32_str_path_isOk (s : String) :
    (bytes32_str_path s).isOk = true ↔
      (strip0x (pyStripL s.data)).length = 64 ∧
      hexPairsWS (strip0x (pyStripL s.data)) = true := by
  have key := pyFromHex_isSome_eq_hexPairsWS (strip0x (pyStripL s.data))
  simp only [bytes32_str_path]
  by_cases hl : (strip0x (pyStripL s.data)).length = 64
  · rw [if_neg (by omega)]
    cases hfh : pyFromHex (strip0x (pyStripL s.data)) with
    | some bs =>
      rw [hfh] at key
      simp only [Option.isSome_some] at key
      simp [hfh, Except.isOk, Except.toBool, hl, ← key]
    | none =>
      rw [hfh] at key
      simp only [Option.isSome_none] at key
      simp [hfh, Except.isOk, Except.toBool, ← key]
  · rw [if_pos hl]
    simp [Except.isOk, Except.toBool, hl]

theorem bytes32_str_path_error_kind (s : String) (e : PyErr)
    (h : bytes32_str_path s = .error e) : e.kind = "ValueError" := by
  simp only [bytes32_str_path] at h
  split at h
  · injection h with h2
    subst h2
    rfl
  · split at h
    · cases h
    · injection h with h2
      subst h2
      rfl

/-- Claim C4 (amended): classification of the normalizer. A byte sequence
succeeds (returned as-is) exactly when its length is 32 and fails with a
`ValueError` otherwise; every other value is rendered with `str` and
succeeds exactly when, after stripping surrounding whitespace and a
lowercase `0x` prefix, the remaining text has length 64 and consists of
hexadecimal-digit pairs separated by optional ASCII whitespace (so a
64-character rendering with internal whitespace between pairs also
succeeds, with fewer than 32 bytes, and non-string values such as integers
can succeed through their decimal rendering); every failure carries the
`ValueError` kind. -/
theorem bytes32_from_any_classification (v : PyVal) :
    (∀ bs, v = .vBytes bs →
      (if bs.length = 32 then bytes32_from_any v = .ok bs
       else ∃ e, bytes32_from_any v = .error e)) ∧
    ((∀ bs, v ≠ .vBytes bs) →
      ((bytes32_from_any v).isOk = true ↔
        (strip0x (pyStripL (pyStr v).data)).length = 64 ∧
        hexPairsWS (strip0x (pyStripL (pyStr v).data)) = true)) ∧
    (∀ e, bytes32_from_any v = .error e → e.kind = "ValueError") := by
  refine ⟨?_, ?_, ?_⟩
  · rintro bs rfl
    by_cases hl : bs.length = 32
    · rw [if_pos hl]
      simp [bytes32_from_any, hl]
    · rw [if_neg hl]
      exact ⟨⟨"ValueError", "Expected 32 bytes, got " ++ toString bs.length⟩,
        by simp [bytes32_from_any, hl]⟩
  · intro hnb
    cases v with
    | vBytes bs => exact absurd rfl (hnb bs)
    | vStr s => exact bytes32_str_path_isOk s
    | vInt i => exact bytes32_str_path_isOk (pyStr (.vInt i))
    | vNone => exact bytes32_str_path_isOk (pyStr .vNone)
  · intro e he
    cases v with
    | vBytes bs =>
      simp only [bytes32_from_any] at he
      split at he
      · injection he with h2
        subst h2
        rfl
      · cases he
    | vStr s => exact bytes32_str_path_error_kind s e he
    | vInt i => exact bytes32_str_path_error_kind (pyStr (PyVal.vInt i)) e he
    | vNone => exact bytes32_str_path_error_kind (pyStr PyVal.vNone) e he

/-- Witness for C4 at a concrete 31-byte input. -/
theorem bytes32_from_any_classification_witness :
    ∃ e, bytes32_from_any (.vBytes (List.replicate 31 0)) = .error e ∧
      e.kind = "ValueError" := by
  have h := bytes32_from_any_classification (.vBytes (List.replicate 31 0))
  have h1 := h.1 (List.replicate 31 0) rfl
  rw [if_neg (by decide)] at h1
  obtain ⟨e, he⟩ := h1
  exact ⟨e, he, h.2.2 e he⟩

/-- Claim C7: whenever the pipeline produces a table, the table's columns
are the five base columns first, in fixed order, followed by the `error`
column exactly when at least one row failed (the only extension column the
core can produce). -/
theorem output_columns (acc : Accessor) (input : List InputRow) (t : OutputTable)
    (h : runPipeline acc input = .ok t) :
    t.cols = baseCols ++
      (if t.rows.any (fun r => r.error.isSome) then ["error"] else []) := by
  cases input with
  | nil =>
    rw [runPipeline_nil] at h
    cases h
  | cons r0 rest =>
    rw [runPipeline_cons] at h
    injection h with h2
    subst h2
    rfl

/-- Witness for C7 at a concrete one-row failing input. -/
theorem output_columns_witness :
    OutputTable.cols ⟨baseCols ++ ["error"], [enrich nullAccessor badRow]⟩ =
      baseCols ++
        (if (OutputTable.rows ⟨baseCols ++ ["error"], [enrich nullAccessor badRow]⟩).any
            (fun r => r.error.isSome)
         then ["error"] else []) :=
  output_columns nullAccessor [badRow] ⟨baseCols ++ ["error"], [enrich nullAccessor badRow]⟩ rfl

/-- Claim C9: the normalizer ignores surrounding whitespace on string
input: normalizing any string gives the same result as normalizing its
stripped form, and a `0x`-prefixed 64-hex-digit string padded with spaces
still succeeds. -/
theorem normalize_ignores_surrounding_whitespace :
    (∀ s : String, bytes32_from_any (.vStr s) =
      bytes32_from_any (.vStr (String.mk (pyStripL s.data)))) ∧
    ∃ bs, bytes32_from_any (.vStr (String.mk
      ([' ', ' '] ++ ('0' :: 'x' :: List.replicate 64 '1') ++ [' ', ' ']))) = .ok bs := by
  constructor
  · intro s
    show bytes32_str_path s = bytes32_str_path (String.mk (pyStripL s.data))
    simp only [bytes32_str_path]
    rw [pyStripL_idem]
  · exact ⟨List.replicate 32 17, rfl⟩

/-- Claim C10: a value that is neither bytes-like nor a string is rendered
with `str` and then follows exactly the string rules; no type error is
possible. -/
theorem normalize_coerces_to_string (v : PyVal) (h : ∀ bs, v ≠ .vBytes bs) :
    bytes32_from_any v = bytes32_from_any (.vStr (pyStr v)) := by
  cases v with
  | vBytes bs => exact absurd rfl (h bs)
  | vStr s => rfl
  | vInt i => rfl
  | vNone => rfl

/-- Witness for C10: the integer `10 ^ 63` renders as 64 decimal digits and
therefore normalizes successfully. -/
theorem normalize_coerces_to_string_witness :
    bytes32_from_any (.vInt (10 ^ 63)) =
      bytes32_from_any (.vStr (pyStr (.vInt (10 ^ 63)))) ∧
    (bytes32_from_any (.vInt (10 ^ 63))).isOk = true :=
  ⟨normalize_coerces_to_string (.vInt (10 ^ 63)) (fun _ hc => PyVal.noConfusion hc),
   by decide⟩

end CheckVestings
